import Mathlib

/-!
Verification development for the entity-space partitioning layer of ezdxf
(`ezdxf/entityspace.py`).

The embedding is shallow and executable:

* `Tags` models one entity record: its handle, the optional `link` forward
  reference, the top-level tag group (`noclass` in the source) and the
  optional `AcDbEntity` subclass tag group.
* `EntityDB` models the external handle -> record database as an
  association list; record mutation is modelled by `dbSet`.
* `EntitySpace` is an ordered list of handles; `LayoutSpaces` keeps an
  insertion-ordered association list of keyed spaces (Python `dict`),
  the shared database and the format version.
* Loops that iterate a list which the loop body may extend (the
  redistribution pass of `repair_owner_tags`, the `link` chase of
  `write`) are given an explicit fuel argument; a `none` result means
  the Python loop would not have finished within that fuel.
* Exceptions are modelled with `Except`; an error carries the state at
  the moment the Python exception would propagate, since the mutations
  already performed stay visible to the caller.
-/

set_option maxHeartbeats 1000000

/-- Handles are opaque unique identifiers; we model them as naturals. -/
abbrev Handle := Nat

/-- One DXF tag: a group code paired with its (integer) value. -/
abbrev TagList := List (Nat × Int)

/-- Modelled from the spec: the external Record collaborator (the `Tags` /
`ExtendedTags` classes of `ezdxf.lldxf`, which are not part of the shown
source).  It exposes a handle, an optional `link` continuation reference,
the top-level `noclass` tag group and the optional entity-level
`AcDbEntity` tag group (`none` when the record lacks that subclass). -/
structure Tags where
  handle : Handle
  link : Option Handle
  noclass : TagList
  acdbEntity : Option TagList
deriving DecidableEq

/-- Modelled from the spec: `Tags.get_first_value(code)` without a default;
returns the value of the first tag with the given group code. -/
def getFirstValue? : TagList → Nat → Option Int
  | [], _ => none
  | (c, v) :: ts, code => if c = code then some v else getFirstValue? ts code

/-- Modelled from the spec: `Tags.get_first_value(code, default)`. -/
def getFirstValueD (ts : TagList) (code : Nat) (d : Int) : Int :=
  (getFirstValue? ts code).getD d

/-- Modelled from the spec: `Tags.set_first(code, value)`: overwrite the
first tag carrying the given code, or append a fresh tag when absent. -/
def setFirst : TagList → Nat → Int → TagList
  | [], code, v => [(code, v)]
  | (c, w) :: ts, code, v =>
    if c = code then (code, v) :: ts else (c, w) :: setFirst ts code v

/-- The external entity database: a handle-keyed association list. -/
abbrev EntityDB := List (Handle × Tags)

/-- Database lookup (`entitydb[handle]`); `none` models `KeyError`. -/
def dbGet : EntityDB → Handle → Option Tags
  | [], _ => none
  | (k, t) :: db, h => if k = h then some t else dbGet db h

/-- Database record replacement; models in-place mutation of the record
object aliased by the database. -/
def dbSet : EntityDB → Handle → Tags → EntityDB
  | [], h, t => [(h, t)]
  | (k, u) :: db, h, t => if k = h then (k, t) :: db else (k, u) :: dbSet db h t

/-- Python string comparison, as used for `dxfversion <= 'AC1009'`:
lexicographic on code points. -/
def lexLe : List Char → List Char → Bool
  | [], _ => true
  | _ :: _, [] => false
  | a :: as, b :: bs =>
    if Char.toNat a < Char.toNat b then true
    else if Char.toNat b < Char.toNat a then false
    else lexLe as bs

/-- String order on the underlying character lists. -/
def strLeB (a b : String) : Bool := lexLe a.data b.data

/-- The legacy version threshold of the source. -/
def AC1009 : String := "AC1009"

/-- An `EntitySpace` is an ordered collection of entity handles; the shared
entity database is carried separately (it is a borrowed reference in the
source). -/
abbrev EntitySpace := List Handle

/-- `EntitySpace.store_tags`: append the record's handle, return it. -/
def EntitySpace.store_tags (s : EntitySpace) (t : Tags) : Handle × EntitySpace :=
  (Tags.handle t, s ++ [Tags.handle t])

/-- `EntitySpace.add_handle`: append a bare handle. -/
def EntitySpace.add_handle (s : EntitySpace) (h : Handle) : EntitySpace :=
  s ++ [h]

/-- Error of the serialization walk: a handle absent from the database
(`KeyError` in the source). -/
inductive WriteError where
  | keyError
deriving DecidableEq

/-- The inner `while handle is not None` loop of `EntitySpace.write`:
resolve the record, emit it, follow its `link` field.  `fuel` bounds the
number of chase steps; `none` means the loop would not terminate within
that fuel (a `link` cycle). -/
def writeChase (db : EntityDB) : Nat → Option Handle → Option (Except WriteError (List Tags))
  | _, none => some (Except.ok [])
  | 0, some _ => none
  | fuel + 1, some h =>
    match dbGet db h with
    | none => some (Except.error WriteError.keyError)
    | some t =>
      match writeChase db fuel (Tags.link t) with
      | none => none
      | some (Except.error e) => some (Except.error e)
      | some (Except.ok l) => some (Except.ok (t :: l))

/-- `EntitySpace.write`: for every handle in insertion order, emit the
resolved record and then every record reached through `link`.  The emitted
records are collected in order instead of being sent to a tag writer. -/
def EntitySpace.write (db : EntityDB) (fuel : Nat) : EntitySpace → Option (Except WriteError (List Tags))
  | [] => some (Except.ok [])
  | h :: hs =>
    match writeChase db fuel (some h) with
    | none => none
    | some (Except.error e) => some (Except.error e)
    | some (Except.ok l) =>
      match EntitySpace.write db fuel hs with
      | none => none
      | some (Except.error e) => some (Except.error e)
      | some (Except.ok l2) => some (Except.ok (l ++ l2))

/-- The `_layout_spaces` dict: an insertion-ordered association list from
partition key to entity space. -/
abbrev Spaces := List (Int × EntitySpace)

/-- Dict lookup `_layout_spaces[key]`. -/
def findSpace : Spaces → Int → Option EntitySpace
  | [], _ => none
  | (k, s) :: ss, key => if k = key then some s else findSpace ss key

/-- Dict lookup defaulting to the empty space. -/
def findSpaceD (ss : Spaces) (key : Int) : EntitySpace := (findSpace ss key).getD []

/-- Dict assignment `_layout_spaces[key] = s`: overwrite the entry if the
key exists, otherwise append it (insertion order). -/
def setSpace : Spaces → Int → EntitySpace → Spaces
  | [], key, s => [(key, s)]
  | (k, u) :: ss, key, s =>
    if k = key then (k, s) :: ss else (k, u) :: setSpace ss key s

/-- Appending one handle to the space stored under `key`; models
`space.append(handle)` through the alias held in the dict. -/
def appendToSpace : Spaces → Int → Handle → Spaces
  | [], _, _ => []
  | (k, s) :: ss, key, h =>
    if k = key then (k, s ++ [h]) :: ss else (k, s) :: appendToSpace ss key h

/-- Dict deletion `del _layout_spaces[key]`. -/
def delKey : Spaces → Int → Spaces
  | [], _ => []
  | (k, s) :: ss, key => if k = key then ss else (k, s) :: delKey ss key

/-- `LayoutSpaces.get_entity_space` at the dict level: return the existing
space, or create, register and return a new empty one. -/
def geSpaces (ss : Spaces) (key : Int) : EntitySpace × Spaces :=
  match findSpace ss key with
  | some s => (s, ss)
  | none => ([], setSpace ss key [])

/-- The key-extraction strategy chosen once at construction
(`self._get_key` in the source). -/
inductive KeyStrategy where
  | paperSpaceFlag
  | ownerRef
deriving DecidableEq

/-- Evaluation of the strategy on a record: the legacy strategy reads the
paper-space flag tag 67 (default 0), the newer strategy reads the
owner-reference tag 330 (default 0). -/
def evalKey (strat : KeyStrategy) (t : Tags) : Int :=
  match strat with
  | KeyStrategy.paperSpaceFlag => getFirstValueD (Tags.noclass t) 67 0
  | KeyStrategy.ownerRef => getFirstValueD (Tags.noclass t) 330 0

/-- The `LayoutSpaces` registry: keyed spaces, the shared database, the
format version and the strategy fixed at construction. -/
structure LayoutSpaces where
  spaces : Spaces
  entitydb : EntityDB
  dxfversion : String
  keyStrat : KeyStrategy
deriving DecidableEq

/-- `LayoutSpaces.__init__`: empty dict, shared database, version, and the
version-dependent key strategy. -/
def mkLayoutSpaces (db : EntityDB) (version : String) : LayoutSpaces :=
  { spaces := [], entitydb := db, dxfversion := version,
    keyStrat := if strLeB version AC1009 then KeyStrategy.paperSpaceFlag
                else KeyStrategy.ownerRef }

/-- The stored key strategy applied to a record (`self._get_key(tags)`). -/
def LayoutSpaces.get_key (r : LayoutSpaces) (t : Tags) : Int :=
  evalKey r.keyStrat t

/-- `LayoutSpaces.get_entity_space`: get the space for `key` or create a
new one; returns the space together with the (possibly extended) registry. -/
def LayoutSpaces.get_entity_space (r : LayoutSpaces) (key : Int) : EntitySpace × LayoutSpaces :=
  ((geSpaces r.spaces key).1, { r with spaces := (geSpaces r.spaces key).2 })

/-- `LayoutSpaces.store_tags`: derive the key, fetch or create the space
and append the record's handle to it. -/
def LayoutSpaces.store_tags (r : LayoutSpaces) (t : Tags) : LayoutSpaces :=
  { r with spaces := appendToSpace (geSpaces r.spaces (r.get_key t)).2
                       (r.get_key t) (Tags.handle t) }

/-- Removal error of `list.remove`: the handle is not a member
(`ValueError` in the source, `NotPresent` in the spec). -/
inductive DeleteError where
  | notPresent
deriving DecidableEq

/-- `list.remove`: drop the first occurrence, `none` if absent. -/
def removeFirst? : EntitySpace → Handle → Option EntitySpace
  | [], _ => none
  | x :: xs, h =>
    if x = h then some xs else (removeFirst? xs h).map (fun ys => x :: ys)

/-- `LayoutSpaces.delete_entity`: derive the key from the record; if no
space is registered under it, silently do nothing; otherwise remove the
record's handle from that space (propagating absence of the handle). -/
def LayoutSpaces.delete_entity (r : LayoutSpaces) (t : Tags) : Except DeleteError LayoutSpaces :=
  match findSpace r.spaces (r.get_key t) with
  | none => Except.ok r
  | some s =>
    match removeFirst? s (Tags.handle t) with
    | none => Except.error DeleteError.notPresent
    | some s2 => Except.ok { r with spaces := setSpace r.spaces (r.get_key t) s2 }

/-- Errors of the repair pass: `DXFStructureError` (missing `AcDbEntity`
subclass, or an owner tag matching neither destination key), an uncaught
database `KeyError`, and the `ValueError` of reading a missing tag without
a default. -/
inductive RepairError where
  | structureError
  | keyError
  | valueError
deriving DecidableEq

/-- Destination key of one entity in the tag-fix pass: paper-space flag 0
means model space, anything else paper space. -/
def keyFor (mk pk : Int) (ets : TagList) : Int :=
  if getFirstValueD ets 67 0 = 0 then mk else pk

/-- The tag-fix pass `update_entity_tags`: for every handle of the
temporary space, read the entity's `AcDbEntity` paper-space flag and write
the resolved destination key into the record's owner tag 330.  An error
carries the database as mutated so far. -/
def updateEntityTags (mk pk : Int) : EntityDB → List Handle → Except (RepairError × EntityDB) EntityDB
  | db, [] => Except.ok db
  | db, h :: hs =>
    match dbGet db h with
    | none => Except.error (RepairError.keyError, db)
    | some t =>
      match Tags.acdbEntity t with
      | none => Except.error (RepairError.structureError, db)
      | some ets =>
        updateEntityTags mk pk
          (dbSet db h { t with noclass := setFirst (Tags.noclass t) 330 (keyFor mk pk ets) }) hs

/-- The redistribution pass `distribute`, iterating the live list stored
under key 0 by index, exactly as a Python `for` loop over a list the body
may extend (it does extend it when `mk` or `pk` is 0).  `fuel` bounds the
number of iterations; `none` means the loop would still be running. -/
def distributeLoop (db : EntityDB) (mk pk : Int) : Nat → Spaces → Nat → Option (Except (RepairError × Spaces) Spaces)
  | fuel, ss, i =>
    if hlt : i < (findSpaceD ss 0).length then
      match fuel with
      | 0 => none
      | fuel + 1 =>
        match dbGet db ((findSpaceD ss 0).get ⟨i, hlt⟩) with
        | none => some (Except.error (RepairError.keyError, ss))
        | some t =>
          match getFirstValue? (Tags.noclass t) 330 with
          | none => some (Except.error (RepairError.valueError, ss))
          | some owner =>
            if owner = mk then
              distributeLoop db mk pk fuel
                (appendToSpace ss mk ((findSpaceD ss 0).get ⟨i, hlt⟩)) (i + 1)
            else if owner = pk then
              distributeLoop db mk pk fuel
                (appendToSpace ss pk ((findSpaceD ss 0).get ⟨i, hlt⟩)) (i + 1)
            else
              some (Except.error (RepairError.structureError, ss))
    else some (Except.ok ss)

/-- The redistribution pass started at the first handle. -/
def distribute (db : EntityDB) (mk pk : Int) (fuel : Nat) (ss : Spaces) : Option (Except (RepairError × Spaces) Spaces) :=
  distributeLoop db mk pk fuel ss 0

/-- `LayoutSpaces.repair_owner_tags`: a no-op for legacy versions and when
no temporary space keyed 0 exists; otherwise ensure the model and paper
spaces exist, run the tag-fix pass, run the redistribution pass, and only
then delete key 0.  An error carries the registry state at the moment the
exception propagates; `none` means the redistribution loop diverges. -/
def LayoutSpaces.repair_owner_tags (r : LayoutSpaces) (mk pk : Int) (fuel : Nat) :
    Option (Except (RepairError × LayoutSpaces) LayoutSpaces) :=
  if strLeB r.dxfversion AC1009 then some (Except.ok r)
  else if (findSpace r.spaces 0).isNone then some (Except.ok r)
  else
    match updateEntityTags mk pk r.entitydb (findSpaceD r.spaces 0) with
    | Except.error (e, db2) =>
      some (Except.error (e, { r with
        spaces := (geSpaces (geSpaces r.spaces mk).2 pk).2, entitydb := db2 }))
    | Except.ok db2 =>
      match distribute db2 mk pk fuel (geSpaces (geSpaces r.spaces mk).2 pk).2 with
      | none => none
      | some (Except.error (e, ss3)) =>
        some (Except.error (e, { r with spaces := ss3, entitydb := db2 }))
      | some (Except.ok ss3) =>
        some (Except.ok { r with spaces := delKey ss3 0, entitydb := db2 })

/-! ## Basic lemmas about tags, the database and the space dict -/

theorem gfv_setFirst_self (ts : TagList) (c : Nat) (v : Int) :
    getFirstValue? (setFirst ts c v) c = some v := by
  induction ts with
  | nil => simp [setFirst, getFirstValue?]
  | cons p ts ih =>
    obtain ⟨c0, v0⟩ := p
    by_cases hc : c0 = c
    · simp [setFirst, hc, getFirstValue?]
    · simp [setFirst, hc, getFirstValue?, ih]

theorem dbGet_dbSet (db : EntityDB) (h : Handle) (t : Tags) (h2 : Handle) :
    dbGet (dbSet db h t) h2 = if h2 = h then some t else dbGet db h2 := by
  induction db with
  | nil =>
    by_cases he : h2 = h
    · simp [dbSet, dbGet, he]
    · have hne : ¬ h = h2 := fun hh => he hh.symm
      simp [dbSet, dbGet, he, hne]
  | cons p db ih =>
    obtain ⟨k, u⟩ := p
    by_cases hk : k = h
    · subst hk
      by_cases he : h2 = k
      · simp [dbSet, dbGet, he]
      · have hne : ¬ k = h2 := fun hh => he hh.symm
        simp [dbSet, dbGet, he, hne]
    · by_cases he : k = h2
      · subst he
        have hne : ¬ h = k := fun hh => hk hh.symm
        simp [dbSet, dbGet, hk, hne]
      · simp [dbSet, dbGet, hk, he, ih]

theorem findSpace_setSpace (ss : Spaces) (k : Int) (v : EntitySpace) (j : Int) :
    findSpace (setSpace ss k v) j = if j = k then some v else findSpace ss j := by
  induction ss with
  | nil =>
    by_cases he : j = k
    · simp [setSpace, findSpace, he]
    · have hne : ¬ k = j := fun hh => he hh.symm
      simp [setSpace, findSpace, he, hne]
  | cons p ss ih =>
    obtain ⟨k0, s0⟩ := p
    by_cases hk : k0 = k
    · subst hk
      by_cases he : j = k0
      · simp [setSpace, findSpace, he]
      · have hne : ¬ k0 = j := fun hh => he hh.symm
        simp [setSpace, findSpace, he, hne]
    · by_cases he : k0 = j
      · subst he
        simp [setSpace, findSpace, hk]
      · simp [setSpace, findSpace, hk, he, ih]

theorem findSpace_appendToSpace (ss : Spaces) (k : Int) (h : Handle) (j : Int) :
    findSpace (appendToSpace ss k h) j =
      if j = k then (findSpace ss k).map (fun s => s ++ [h]) else findSpace ss j := by
  induction ss with
  | nil =>
    by_cases he : j = k
    · simp [appendToSpace, findSpace, he]
    · simp [appendToSpace, findSpace, he]
  | cons p ss ih =>
    obtain ⟨k0, s0⟩ := p
    by_cases hk : k0 = k
    · subst hk
      by_cases he : j = k0
      · simp [appendToSpace, findSpace, he]
      · have hne : ¬ k0 = j := fun hh => he hh.symm
        simp [appendToSpace, findSpace, he, hne]
    · by_cases he : k0 = j
      · subst he
        simp [appendToSpace, findSpace, hk]
      · simp [appendToSpace, findSpace, hk, he, ih]

theorem keys_appendToSpace (ss : Spaces) (k : Int) (h : Handle) :
    (appendToSpace ss k h).map Prod.fst = ss.map Prod.fst := by
  induction ss with
  | nil => simp [appendToSpace]
  | cons p ss ih =>
    obtain ⟨k0, s0⟩ := p
    by_cases hk : k0 = k
    · simp [appendToSpace, hk]
    · simp [appendToSpace, hk, ih]

theorem findSpace_eq_none_iff (ss : Spaces) (k : Int) :
    findSpace ss k = none ↔ k ∉ ss.map Prod.fst := by
  induction ss with
  | nil => simp [findSpace]
  | cons p ss ih =>
    obtain ⟨k0, s0⟩ := p
    by_cases hk : k0 = k
    · simp [findSpace, hk]
    · have hne : ¬ k = k0 := fun hh => hk hh.symm
      simp [findSpace, hk, ih, hne]

theorem keys_setSpace (ss : Spaces) (k : Int) (v : EntitySpace) :
    (setSpace ss k v).map Prod.fst =
      if (findSpace ss k).isSome then ss.map Prod.fst else ss.map Prod.fst ++ [k] := by
  induction ss with
  | nil => simp [setSpace, findSpace]
  | cons p ss ih =>
    obtain ⟨k0, s0⟩ := p
    by_cases hk : k0 = k
    · simp [setSpace, findSpace, hk]
    · simp only [setSpace, findSpace, hk, if_false, List.map_cons, ih]
      by_cases hs : (findSpace ss k).isSome
      · simp [hs]
      · simp [hs]

theorem findSpace_delKey_ne (ss : Spaces) (k j : Int) (hj : j ≠ k) :
    findSpace (delKey ss k) j = findSpace ss j := by
  induction ss with
  | nil => simp [delKey]
  | cons p ss ih =>
    obtain ⟨k0, s0⟩ := p
    by_cases hk : k0 = k
    · subst hk
      have hne : ¬ k0 = j := fun hh => hj hh.symm
      simp [delKey, findSpace, hne]
    · simp [delKey, findSpace, hk, ih]

theorem findSpace_delKey_self (ss : Spaces) (k : Int)
    (nd : (ss.map Prod.fst).Nodup) : findSpace (delKey ss k) k = none := by
  induction ss with
  | nil => simp [delKey, findSpace]
  | cons p ss ih =>
    obtain ⟨k0, s0⟩ := p
    simp only [List.map_cons, List.nodup_cons] at nd
    by_cases hk : k0 = k
    · subst hk
      simp only [delKey, if_pos rfl]
      exact (findSpace_eq_none_iff ss k0).mpr nd.1
    · simp [delKey, findSpace, hk, ih nd.2]

theorem findSpace_geSpaces (ss : Spaces) (k j : Int) :
    findSpace (geSpaces ss k).2 j =
      if j = k then some (geSpaces ss k).1 else findSpace ss j := by
  by_cases hs : (findSpace ss k).isSome
  · obtain ⟨v, hv⟩ := Option.isSome_iff_exists.mp hs
    by_cases he : j = k
    · subst he
      simp [geSpaces, hv]
    · simp [geSpaces, hv, he]
  · have hn : findSpace ss k = none := Option.not_isSome_iff_eq_none.mp hs
    by_cases he : j = k
    · subst he
      simp [geSpaces, hn, findSpace_setSpace]
    · simp [geSpaces, hn, findSpace_setSpace, he]

theorem nodup_keys_geSpaces (ss : Spaces) (k : Int)
    (nd : (ss.map Prod.fst).Nodup) : ((geSpaces ss k).2.map Prod.fst).Nodup := by
  by_cases hs : (findSpace ss k).isSome
  · obtain ⟨v, hv⟩ := Option.isSome_iff_exists.mp hs
    simpa [geSpaces, hv] using nd
  · have hn : findSpace ss k = none := Option.not_isSome_iff_eq_none.mp hs
    have hk : k ∉ ss.map Prod.fst := (findSpace_eq_none_iff ss k).mp hn
    simp only [geSpaces, hn]
    rw [keys_setSpace]
    simp [hn, List.nodup_append, nd, hk]

/-! ## Lists growing by appended suffixes -/

/-- One list extends another: the second is the first plus a suffix. -/
def ListExt {α : Type} (l1 l2 : List α) : Prop := ∃ u, l2 = l1 ++ u

theorem ListExt.self {α : Type} (l : List α) : ListExt l l := ⟨[], by simp⟩

theorem ListExt.trans {α : Type} {l1 l2 l3 : List α}
    (a : ListExt l1 l2) (b : ListExt l2 l3) : ListExt l1 l3 := by
  obtain ⟨u, hu⟩ := a
  obtain ⟨w, hw⟩ := b
  exact ⟨u ++ w, by simp [hw, hu]⟩

theorem ListExt.push {α : Type} (l : List α) (u : List α) : ListExt l (l ++ u) := ⟨u, Eq.refl _⟩

theorem ListExt.mem {α : Type} {l1 l2 : List α} (e : ListExt l1 l2) {x : α}
    (hx : x ∈ l1) : x ∈ l2 := by
  obtain ⟨u, hu⟩ := e
  subst hu
  exact List.mem_append_left u hx

theorem ListExt.length_le {α : Type} {l1 l2 : List α} (e : ListExt l1 l2) :
    l1.length ≤ l2.length := by
  obtain ⟨u, hu⟩ := e
  subst hu
  simp

theorem ListExt.get_eq {α : Type} {l1 l2 : List α} (e : ListExt l1 l2) (i : Nat)
    (h1 : i < l1.length) (h2 : i < l2.length) : l2.get ⟨i, h2⟩ = l1.get ⟨i, h1⟩ := by
  obtain ⟨u, hu⟩ := e
  subst hu
  simp [List.get_eq_getElem, List.getElem_append_left, h1]

/-! ## The tag-fix pass -/

/-- Two databases agree on record presence and on the `AcDbEntity`
subclass of every record; the tag-fix pass only rewrites `noclass`
owner tags, so it preserves this agreement. -/
def AcdbAgrees (db0 db : EntityDB) : Prop :=
  ∀ h, (dbGet db h).map Tags.acdbEntity = (dbGet db0 h).map Tags.acdbEntity

theorem AcdbAgrees.rfl (db : EntityDB) : AcdbAgrees db db := fun _ => Eq.refl _

theorem AcdbAgrees.step {db0 db : EntityDB} (hag : AcdbAgrees db0 db)
    {h : Handle} {t : Tags} (hget : dbGet db h = some t) (ts : TagList) :
    AcdbAgrees db0 (dbSet db h { t with noclass := ts }) := by
  intro h2
  rw [dbGet_dbSet]
  by_cases he : h2 = h
  · subst he
    rw [← hag h2, hget]
    simp
  · rw [if_neg he]
    exact hag h2

theorem updateEntityTags_frame (mk pk : Int) (hs : List Handle)
    (db db' : EntityDB) (hok : updateEntityTags mk pk db hs = Except.ok db')
    (h : Handle) (hh : h ∉ hs) : dbGet db' h = dbGet db h := by
  induction hs generalizing db with
  | nil =>
    simp only [updateEntityTags, Except.ok.injEq] at hok
    subst hok
    rfl
  | cons h0 hs ih =>
    have hne : h ≠ h0 := fun he => hh (he ▸ List.mem_cons_self h0 hs)
    have hh2 : h ∉ hs := fun he => hh (List.mem_cons_of_mem h0 he)
    cases hget : dbGet db h0 with
    | none => simp [updateEntityTags, hget] at hok
    | some t =>
      cases hsub : Tags.acdbEntity t with
      | none => simp [updateEntityTags, hget, hsub] at hok
      | some ets =>
        simp only [updateEntityTags, hget, hsub] at hok
        rw [ih _ hok hh2, dbGet_dbSet, if_neg hne]

theorem updateEntityTags_post (mk pk : Int) (hs : List Handle)
    (db0 db db' : EntityDB) (hag : AcdbAgrees db0 db)
    (hok : updateEntityTags mk pk db hs = Except.ok db') :
    AcdbAgrees db0 db' ∧
    ∀ h ∈ hs, ∃ t0 ets, dbGet db0 h = some t0 ∧ Tags.acdbEntity t0 = some ets ∧
      ∃ t1, dbGet db' h = some t1 ∧
        getFirstValue? (Tags.noclass t1) 330 = some (keyFor mk pk ets) := by
  induction hs generalizing db with
  | nil =>
    simp only [updateEntityTags, Except.ok.injEq] at hok
    subst hok
    exact ⟨hag, by simp⟩
  | cons h0 hs ih =>
    cases hget : dbGet db h0 with
    | none => simp [updateEntityTags, hget] at hok
    | some t =>
      cases hsub : Tags.acdbEntity t with
      | none => simp [updateEntityTags, hget, hsub] at hok
      | some ets =>
        simp only [updateEntityTags, hget, hsub] at hok
        rw [← hsub] at hok
        have hag1 : AcdbAgrees db0
            (dbSet db h0 { t with noclass := setFirst (Tags.noclass t) 330 (keyFor mk pk ets) }) :=
          hag.step hget _
        obtain ⟨hagF, hpost⟩ := ih _ hag1 hok
        refine ⟨hagF, ?_⟩
        intro h hh
        rcases List.mem_cons.mp hh with he | hmem
        · subst he
          by_cases hin : h ∈ hs
          · exact hpost h hin
          · have h0orig : (dbGet db0 h).map Tags.acdbEntity = some (some ets) := by
              rw [← hag h, hget]
              simp [hsub]
            obtain ⟨t0, ht0, ht0e⟩ : ∃ t0, dbGet db0 h = some t0 ∧ Tags.acdbEntity t0 = some ets := by
              cases hd : dbGet db0 h with
              | none => rw [hd] at h0orig; simp at h0orig
              | some t0 =>
                rw [hd] at h0orig
                simp at h0orig
                exact ⟨t0, rfl, h0orig⟩
            have hfr := updateEntityTags_frame mk pk hs _ _ hok h hin
            refine ⟨t0, ets, ht0, ht0e, ?_⟩
            rw [hfr, dbGet_dbSet, if_pos rfl]
            exact ⟨_, rfl, gfv_setFirst_self _ _ _⟩
        · exact hpost h hmem

/-! ## The redistribution pass -/

theorem distributeLoop_stop (db : EntityDB) (mk pk : Int) (fuel : Nat) (ss : Spaces)
    (i : Nat) (hge : ¬ i < (findSpaceD ss 0).length) :
    distributeLoop db mk pk fuel ss i = some (Except.ok ss) := by
  rw [distributeLoop]
  exact dif_neg hge

theorem distributeLoop_zero (db : EntityDB) (mk pk : Int) (ss : Spaces) (i : Nat)
    (hlt : i < (findSpaceD ss 0).length) :
    distributeLoop db mk pk 0 ss i = none := by
  rw [distributeLoop]
  rw [dif_pos hlt]

theorem distributeLoop_succ (db : EntityDB) (mk pk : Int) (fuel : Nat) (ss : Spaces)
    (i : Nat) (hlt : i < (findSpaceD ss 0).length) :
    distributeLoop db mk pk (fuel + 1) ss i =
      match dbGet db ((findSpaceD ss 0).get ⟨i, hlt⟩) with
      | none => some (Except.error (RepairError.keyError, ss))
      | some t =>
        match getFirstValue? (Tags.noclass t) 330 with
        | none => some (Except.error (RepairError.valueError, ss))
        | some owner =>
          if owner = mk then
            distributeLoop db mk pk fuel
              (appendToSpace ss mk ((findSpaceD ss 0).get ⟨i, hlt⟩)) (i + 1)
          else if owner = pk then
            distributeLoop db mk pk fuel
              (appendToSpace ss pk ((findSpaceD ss 0).get ⟨i, hlt⟩)) (i + 1)
          else
            some (Except.error (RepairError.structureError, ss)) := by
  rw [distributeLoop]
  rw [dif_pos hlt]

theorem findSpaceD_appendToSpace_ext (ss : Spaces) (k0 : Int) (h : Handle) (k : Int) :
    ListExt (findSpaceD ss k) (findSpaceD (appendToSpace ss k0 h) k) := by
  unfold findSpaceD
  rw [findSpace_appendToSpace]
  by_cases he : k = k0
  · subst he
    cases hf : findSpace ss k with
    | none => simp [hf]; exact ListExt.self []
    | some v => simp [hf]; exact ListExt.push v [h]
  · rw [if_neg he]
    exact ListExt.self _

theorem findSpaceD_appendToSpace_ne (ss : Spaces) (k0 : Int) (h : Handle) (k : Int)
    (hne : k ≠ k0) : findSpaceD (appendToSpace ss k0 h) k = findSpaceD ss k := by
  unfold findSpaceD
  rw [findSpace_appendToSpace, if_neg hne]

theorem isSome_appendToSpace (ss : Spaces) (k0 : Int) (h : Handle) (k : Int) :
    (findSpace (appendToSpace ss k0 h) k).isSome = (findSpace ss k).isSome := by
  rw [findSpace_appendToSpace]
  by_cases he : k = k0
  · subst he
    cases hf : findSpace ss k <;> simp [hf]
  · rw [if_neg he]

theorem get_append_last {α : Type} (l : List α) (a : α)
    (hlen : l.length < (l ++ [a]).length) : (l ++ [a]).get ⟨l.length, hlen⟩ = a := by
  simp [List.get_eq_getElem]

theorem distributeLoop_ext (db : EntityDB) (mk pk : Int) (fuel : Nat) :
    ∀ (ss : Spaces) (i : Nat) (ss' : Spaces),
    distributeLoop db mk pk fuel ss i = some (Except.ok ss') →
    ∀ k, ListExt (findSpaceD ss k) (findSpaceD ss' k) := by
  induction fuel with
  | zero =>
    intro ss i ss' hok k
    by_cases hlt : i < (findSpaceD ss 0).length
    · rw [distributeLoop_zero db mk pk ss i hlt] at hok
      cases hok
    · rw [distributeLoop_stop db mk pk 0 ss i hlt] at hok
      cases hok
      exact ListExt.self _
  | succ fuel ih =>
    intro ss i ss' hok k
    by_cases hlt : i < (findSpaceD ss 0).length
    · rw [distributeLoop_succ db mk pk fuel ss i hlt] at hok
      cases hget : dbGet db ((findSpaceD ss 0).get ⟨i, hlt⟩) with
      | none => rw [hget] at hok; cases hok
      | some t =>
        rw [hget] at hok
        cases hgfv : getFirstValue? (Tags.noclass t) 330 with
        | none => simp only [hgfv] at hok; cases hok
        | some owner =>
          simp only [hgfv] at hok
          by_cases hmk : owner = mk
          · rw [if_pos hmk] at hok
            exact (findSpaceD_appendToSpace_ext ss mk _ k).trans (ih _ _ _ hok k)
          · rw [if_neg hmk] at hok
            by_cases hpk : owner = pk
            · rw [if_pos hpk] at hok
              exact (findSpaceD_appendToSpace_ext ss pk _ k).trans (ih _ _ _ hok k)
            · rw [if_neg hpk] at hok
              cases hok
    · rw [distributeLoop_stop db mk pk _ ss i hlt] at hok
      cases hok
      exact ListExt.self _

theorem keys_distributeLoop (db : EntityDB) (mk pk : Int) (fuel : Nat) :
    ∀ (ss : Spaces) (i : Nat) (ss' : Spaces),
    distributeLoop db mk pk fuel ss i = some (Except.ok ss') →
    ss'.map Prod.fst = ss.map Prod.fst := by
  induction fuel with
  | zero =>
    intro ss i ss' hok
    by_cases hlt : i < (findSpaceD ss 0).length
    · rw [distributeLoop_zero db mk pk ss i hlt] at hok
      cases hok
    · rw [distributeLoop_stop db mk pk 0 ss i hlt] at hok
      cases hok
      rfl
  | succ fuel ih =>
    intro ss i ss' hok
    by_cases hlt : i < (findSpaceD ss 0).length
    · rw [distributeLoop_succ db mk pk fuel ss i hlt] at hok
      cases hget : dbGet db ((findSpaceD ss 0).get ⟨i, hlt⟩) with
      | none => rw [hget] at hok; cases hok
      | some t =>
        rw [hget] at hok
        cases hgfv : getFirstValue? (Tags.noclass t) 330 with
        | none => simp only [hgfv] at hok; cases hok
        | some owner =>
          simp only [hgfv] at hok
          by_cases hmk : owner = mk
          · rw [if_pos hmk] at hok
            rw [ih _ _ _ hok, keys_appendToSpace]
          · rw [if_neg hmk] at hok
            by_cases hpk : owner = pk
            · rw [if_pos hpk] at hok
              rw [ih _ _ _ hok, keys_appendToSpace]
            · rw [if_neg hpk] at hok
              cases hok
    · rw [distributeLoop_stop db mk pk _ ss i hlt] at hok
      cases hok
      rfl

theorem findSpace_of_len_pos (ss : Spaces) (k : Int)
    (hl : 0 < (findSpaceD ss k).length) : findSpace ss k = some (findSpaceD ss k) := by
  unfold findSpaceD at *
  cases hf : findSpace ss k with
  | none => rw [hf] at hl; simp at hl
  | some v => simp

theorem distributeLoop_complete (db : EntityDB) (mk pk : Int) (fuel : Nat) :
    ∀ (ss : Spaces) (i : Nat) (ss' : Spaces),
    distributeLoop db mk pk fuel ss i = some (Except.ok ss') →
    (findSpace ss mk).isSome = true → (findSpace ss pk).isSome = true →
    ∀ j, i ≤ j → ∀ hj : j < (findSpaceD ss' 0).length,
      ∃ o t, dbGet db ((findSpaceD ss' 0).get ⟨j, hj⟩) = some t ∧
        getFirstValue? (Tags.noclass t) 330 = some o ∧
        ((o = mk ∧ (findSpaceD ss' 0).get ⟨j, hj⟩ ∈ findSpaceD ss' mk) ∨
         (o = pk ∧ (findSpaceD ss' 0).get ⟨j, hj⟩ ∈ findSpaceD ss' pk)) := by
  induction fuel with
  | zero =>
    intro ss i ss' hok hsm hsp j hij hj
    by_cases hlt : i < (findSpaceD ss 0).length
    · rw [distributeLoop_zero db mk pk ss i hlt] at hok
      cases hok
    · rw [distributeLoop_stop db mk pk 0 ss i hlt] at hok
      cases hok
      omega
  | succ fuel ih =>
    intro ss i ss' hok hsm hsp j hij hj
    by_cases hlt : i < (findSpaceD ss 0).length
    · rw [distributeLoop_succ db mk pk fuel ss i hlt] at hok
      cases hget : dbGet db ((findSpaceD ss 0).get ⟨i, hlt⟩) with
      | none => rw [hget] at hok; cases hok
      | some t =>
        rw [hget] at hok
        cases hgfv : getFirstValue? (Tags.noclass t) 330 with
        | none => simp only [hgfv] at hok; cases hok
        | some owner =>
          simp only [hgfv] at hok
          by_cases hmk : owner = mk
          · rw [if_pos hmk] at hok
            have hsm2 : (findSpace (appendToSpace ss mk ((findSpaceD ss 0).get ⟨i, hlt⟩)) mk).isSome = true := by
              rw [isSome_appendToSpace]; exact hsm
            have hsp2 : (findSpace (appendToSpace ss mk ((findSpaceD ss 0).get ⟨i, hlt⟩)) pk).isSome = true := by
              rw [isSome_appendToSpace]; exact hsp
            by_cases hji : i + 1 ≤ j
            · exact ih _ _ _ hok hsm2 hsp2 j hji hj
            · have hje : j = i := by omega
              subst hje
              have e1 : ListExt (findSpaceD ss 0)
                  (findSpaceD (appendToSpace ss mk ((findSpaceD ss 0).get ⟨j, hlt⟩)) 0) :=
                findSpaceD_appendToSpace_ext ss mk _ 0
              have e2 := distributeLoop_ext db mk pk fuel _ _ _ hok 0
              have egot := (e1.trans e2).get_eq j hlt hj
              obtain ⟨v, hv⟩ := Option.isSome_iff_exists.mp hsm
              have hvn : findSpaceD (appendToSpace ss mk ((findSpaceD ss 0).get ⟨j, hlt⟩)) mk =
                  v ++ [(findSpaceD ss 0).get ⟨j, hlt⟩] := by
                rw [findSpaceD, findSpace_appendToSpace, if_pos rfl, hv]
                rfl
              have hmem : (findSpaceD ss 0).get ⟨j, hlt⟩ ∈
                  findSpaceD (appendToSpace ss mk ((findSpaceD ss 0).get ⟨j, hlt⟩)) mk := by
                rw [hvn]
                simp
              have hmem2 := (distributeLoop_ext db mk pk fuel _ _ _ hok mk).mem hmem
              refine ⟨owner, t, ?_, hgfv, Or.inl ⟨hmk, ?_⟩⟩
              · rw [egot]; exact hget
              · rw [egot]; exact hmem2
          · rw [if_neg hmk] at hok
            by_cases hpk : owner = pk
            · rw [if_pos hpk] at hok
              have hsm2 : (findSpace (appendToSpace ss pk ((findSpaceD ss 0).get ⟨i, hlt⟩)) mk).isSome = true := by
                rw [isSome_appendToSpace]; exact hsm
              have hsp2 : (findSpace (appendToSpace ss pk ((findSpaceD ss 0).get ⟨i, hlt⟩)) pk).isSome = true := by
                rw [isSome_appendToSpace]; exact hsp
              by_cases hji : i + 1 ≤ j
              · exact ih _ _ _ hok hsm2 hsp2 j hji hj
              · have hje : j = i := by omega
                subst hje
                have e1 : ListExt (findSpaceD ss 0)
                    (findSpaceD (appendToSpace ss pk ((findSpaceD ss 0).get ⟨j, hlt⟩)) 0) :=
                  findSpaceD_appendToSpace_ext ss pk _ 0
                have e2 := distributeLoop_ext db mk pk fuel _ _ _ hok 0
                have egot := (e1.trans e2).get_eq j hlt hj
                obtain ⟨v, hv⟩ := Option.isSome_iff_exists.mp hsp
                have hvn : findSpaceD (appendToSpace ss pk ((findSpaceD ss 0).get ⟨j, hlt⟩)) pk =
                    v ++ [(findSpaceD ss 0).get ⟨j, hlt⟩] := by
                  rw [findSpaceD, findSpace_appendToSpace, if_pos rfl, hv]
                  rfl
                have hmem : (findSpaceD ss 0).get ⟨j, hlt⟩ ∈
                    findSpaceD (appendToSpace ss pk ((findSpaceD ss 0).get ⟨j, hlt⟩)) pk := by
                  rw [hvn]
                  simp
                have hmem2 := (distributeLoop_ext db mk pk fuel _ _ _ hok pk).mem hmem
                refine ⟨owner, t, ?_, hgfv, Or.inr ⟨hpk, ?_⟩⟩
                · rw [egot]; exact hget
                · rw [egot]; exact hmem2
            · rw [if_neg hpk] at hok
              cases hok
    · rw [distributeLoop_stop db mk pk _ ss i hlt] at hok
      cases hok
      omega

theorem distributeLoop_no_ok_of_bad (db : EntityDB) (mk pk : Int) (fuel : Nat) :
    ∀ (ss : Spaces) (i : Nat),
    (∃ h ∈ (findSpaceD ss 0).drop i, ∃ t, dbGet db h = some t ∧
       getFirstValue? (Tags.noclass t) 330 = some 0) →
    ∀ ss', distributeLoop db mk pk fuel ss i ≠ some (Except.ok ss') := by
  induction fuel with
  | zero =>
    intro ss i hbad ss' hok
    by_cases hlt : i < (findSpaceD ss 0).length
    · rw [distributeLoop_zero db mk pk ss i hlt] at hok
      cases hok
    · obtain ⟨h, hmem, _⟩ := hbad
      rw [List.drop_eq_nil_of_le (by omega)] at hmem
      cases hmem
  | succ fuel ih =>
    intro ss i hbad ss' hok
    by_cases hlt : i < (findSpaceD ss 0).length
    · rw [distributeLoop_succ db mk pk fuel ss i hlt] at hok
      have hdrop : (findSpaceD ss 0).drop i =
          (findSpaceD ss 0).get ⟨i, hlt⟩ :: (findSpaceD ss 0).drop (i + 1) := by
        rw [List.drop_eq_getElem_cons hlt]
        simp [List.get_eq_getElem]
      cases hget : dbGet db ((findSpaceD ss 0).get ⟨i, hlt⟩) with
      | none => rw [hget] at hok; simp at hok
      | some t2 =>
        rw [hget] at hok
        cases hgfv : getFirstValue? (Tags.noclass t2) 330 with
        | none => simp only [hgfv] at hok; simp at hok
        | some owner =>
          simp only [hgfv] at hok
          by_cases hmk : owner = mk
          · rw [if_pos hmk] at hok
            by_cases hmk0 : mk = 0
            · subst hmk0
              have hl0 : findSpace ss 0 = some (findSpaceD ss 0) :=
                findSpace_of_len_pos ss 0 (by omega)
              have hfa : findSpaceD (appendToSpace ss 0 ((findSpaceD ss 0).get ⟨i, hlt⟩)) 0 =
                  findSpaceD ss 0 ++ [(findSpaceD ss 0).get ⟨i, hlt⟩] := by
                rw [findSpaceD, findSpace_appendToSpace, if_pos rfl, hl0]
                rfl
              refine ih _ (i + 1) ?_ ss' hok
              rw [hfa, List.drop_append_of_le_length (by omega)]
              obtain ⟨hb, hbmem, t, hbT, hb0⟩ := hbad
              rw [hdrop] at hbmem
              rcases List.mem_cons.mp hbmem with he | hmem2
              · refine ⟨(findSpaceD ss 0).get ⟨i, hlt⟩, ?_, t, ?_, hb0⟩
                · simp
                · rw [← he]
                  exact hbT
              · exact ⟨hb, List.mem_append_left _ hmem2, t, hbT, hb0⟩
            · have hne : (0 : Int) ≠ mk := fun hh => hmk0 hh.symm
              have hfa := findSpaceD_appendToSpace_ne ss mk ((findSpaceD ss 0).get ⟨i, hlt⟩) 0 hne
              refine ih _ (i + 1) ?_ ss' hok
              rw [hfa]
              obtain ⟨hb, hbmem, t, hbT, hb0⟩ := hbad
              rw [hdrop] at hbmem
              rcases List.mem_cons.mp hbmem with he | hmem2
              · exfalso
                rw [he] at hbT
                rw [hbT] at hget
                injection hget with htt
                subst htt
                rw [hgfv] at hb0
                injection hb0 with ho
                exact hmk0 (hmk.symm.trans ho)
              · exact ⟨hb, hmem2, t, hbT, hb0⟩
          · rw [if_neg hmk] at hok
            by_cases hpk : owner = pk
            · rw [if_pos hpk] at hok
              by_cases hpk0 : pk = 0
              · subst hpk0
                have hl0 : findSpace ss 0 = some (findSpaceD ss 0) :=
                  findSpace_of_len_pos ss 0 (by omega)
                have hfa : findSpaceD (appendToSpace ss 0 ((findSpaceD ss 0).get ⟨i, hlt⟩)) 0 =
                    findSpaceD ss 0 ++ [(findSpaceD ss 0).get ⟨i, hlt⟩] := by
                  rw [findSpaceD, findSpace_appendToSpace, if_pos rfl, hl0]
                  rfl
                refine ih _ (i + 1) ?_ ss' hok
                rw [hfa, List.drop_append_of_le_length (by omega)]
                obtain ⟨hb, hbmem, t, hbT, hb0⟩ := hbad
                rw [hdrop] at hbmem
                rcases List.mem_cons.mp hbmem with he | hmem2
                · refine ⟨(findSpaceD ss 0).get ⟨i, hlt⟩, ?_, t, ?_, hb0⟩
                  · simp
                  · rw [← he]
                    exact hbT
                · exact ⟨hb, List.mem_append_left _ hmem2, t, hbT, hb0⟩
              · have hne : (0 : Int) ≠ pk := fun hh => hpk0 hh.symm
                have hfa := findSpaceD_appendToSpace_ne ss pk ((findSpaceD ss 0).get ⟨i, hlt⟩) 0 hne
                refine ih _ (i + 1) ?_ ss' hok
                rw [hfa]
                obtain ⟨hb, hbmem, t, hbT, hb0⟩ := hbad
                rw [hdrop] at hbmem
                rcases List.mem_cons.mp hbmem with he | hmem2
                · exfalso
                  rw [he] at hbT
                  rw [hbT] at hget
                  injection hget with htt
                  subst htt
                  rw [hgfv] at hb0
                  injection hb0 with ho
                  exact hpk0 (hpk.symm.trans ho)
                · exact ⟨hb, hmem2, t, hbT, hb0⟩
            · rw [if_neg hpk] at hok
              simp at hok
    · obtain ⟨h, hmem, _⟩ := hbad
      rw [List.drop_eq_nil_of_le (by omega)] at hmem
      cases hmem

theorem distributeLoop_no_error (db : EntityDB) (mk pk : Int) (fuel : Nat) :
    ∀ (ss : Spaces) (i : Nat),
    (∀ h ∈ findSpaceD ss 0, ∃ t o, dbGet db h = some t ∧
       getFirstValue? (Tags.noclass t) 330 = some o ∧ (o = mk ∨ o = pk)) →
    ∀ e ss', distributeLoop db mk pk fuel ss i ≠ some (Except.error (e, ss')) := by
  induction fuel with
  | zero =>
    intro ss i hgood e ss' herr
    by_cases hlt : i < (findSpaceD ss 0).length
    · rw [distributeLoop_zero db mk pk ss i hlt] at herr
      cases herr
    · rw [distributeLoop_stop db mk pk 0 ss i hlt] at herr
      simp at herr
  | succ fuel ih =>
    intro ss i hgood e ss' herr
    by_cases hlt : i < (findSpaceD ss 0).length
    · rw [distributeLoop_succ db mk pk fuel ss i hlt] at herr
      have hmem : (findSpaceD ss 0).get ⟨i, hlt⟩ ∈ findSpaceD ss 0 := List.get_mem _ _ _
      obtain ⟨t, o, hT, hO, hMP⟩ := hgood _ hmem
      rw [hT] at herr
      simp only [hO] at herr
      by_cases hmk : o = mk
      · rw [if_pos hmk] at herr
        refine ih _ (i + 1) ?_ e ss' herr
        intro h2 hmem2
        by_cases hmk0 : (0 : Int) = mk
        · have hl0 : findSpace ss 0 = some (findSpaceD ss 0) :=
            findSpace_of_len_pos ss 0 (by omega)
          have hfa : findSpaceD (appendToSpace ss mk ((findSpaceD ss 0).get ⟨i, hlt⟩)) 0 =
              findSpaceD ss 0 ++ [(findSpaceD ss 0).get ⟨i, hlt⟩] := by
            rw [findSpaceD, findSpace_appendToSpace, if_pos hmk0, ← hmk0, hl0]
            rfl
          rw [hfa] at hmem2
          rcases List.mem_append.mp hmem2 with hm | hm
          · exact hgood h2 hm
          · rw [List.mem_singleton] at hm
            subst hm
            exact ⟨t, o, hT, hO, hMP⟩
        · have hfa := findSpaceD_appendToSpace_ne ss mk ((findSpaceD ss 0).get ⟨i, hlt⟩) 0 hmk0
          rw [hfa] at hmem2
          exact hgood h2 hmem2
      · have hpk : o = pk := hMP.resolve_left hmk
        rw [if_neg hmk, if_pos hpk] at herr
        refine ih _ (i + 1) ?_ e ss' herr
        intro h2 hmem2
        by_cases hpk0 : (0 : Int) = pk
        · have hl0 : findSpace ss 0 = some (findSpaceD ss 0) :=
            findSpace_of_len_pos ss 0 (by omega)
          have hfa : findSpaceD (appendToSpace ss pk ((findSpaceD ss 0).get ⟨i, hlt⟩)) 0 =
              findSpaceD ss 0 ++ [(findSpaceD ss 0).get ⟨i, hlt⟩] := by
            rw [findSpaceD, findSpace_appendToSpace, if_pos hpk0, ← hpk0, hl0]
            rfl
          rw [hfa] at hmem2
          rcases List.mem_append.mp hmem2 with hm | hm
          · exact hgood h2 hm
          · rw [List.mem_singleton] at hm
            subst hm
            exact ⟨t, o, hT, hO, hMP⟩
        · have hfa := findSpaceD_appendToSpace_ne ss pk ((findSpaceD ss 0).get ⟨i, hlt⟩) 0 hpk0
          rw [hfa] at hmem2
          exact hgood h2 hmem2
    · rw [distributeLoop_stop db mk pk _ ss i hlt] at herr
      simp at herr

theorem distributeLoop_total (db : EntityDB) (mk pk : Int)
    (hmk : mk ≠ 0) (hpk : pk ≠ 0) (fuel : Nat) :
    ∀ (ss : Spaces) (i : Nat), (findSpaceD ss 0).length ≤ i + fuel →
    ∃ res, distributeLoop db mk pk fuel ss i = some res := by
  induction fuel with
  | zero =>
    intro ss i hlen
    have hge : ¬ i < (findSpaceD ss 0).length := by omega
    exact ⟨Except.ok ss, distributeLoop_stop db mk pk 0 ss i hge⟩
  | succ fuel ih =>
    intro ss i hlen
    by_cases hlt : i < (findSpaceD ss 0).length
    · cases hget : dbGet db ((findSpaceD ss 0).get ⟨i, hlt⟩) with
      | none =>
        refine ⟨Except.error (RepairError.keyError, ss), ?_⟩
        rw [distributeLoop_succ db mk pk fuel ss i hlt, hget]
      | some t =>
        cases hgfv : getFirstValue? (Tags.noclass t) 330 with
        | none =>
          refine ⟨Except.error (RepairError.valueError, ss), ?_⟩
          rw [distributeLoop_succ db mk pk fuel ss i hlt, hget]
          simp only [hgfv]
        | some owner =>
          by_cases homk : owner = mk
          · have hne : (0 : Int) ≠ mk := fun hh => hmk hh.symm
            have hfa := findSpaceD_appendToSpace_ne ss mk ((findSpaceD ss 0).get ⟨i, hlt⟩) 0 hne
            obtain ⟨res, hres⟩ :=
              ih (appendToSpace ss mk ((findSpaceD ss 0).get ⟨i, hlt⟩)) (i + 1) (by rw [hfa]; omega)
            refine ⟨res, ?_⟩
            rw [distributeLoop_succ db mk pk fuel ss i hlt, hget]
            simp only [hgfv]
            rw [if_pos homk]
            exact hres
          · by_cases hopk : owner = pk
            · have hne : (0 : Int) ≠ pk := fun hh => hpk hh.symm
              have hfa := findSpaceD_appendToSpace_ne ss pk ((findSpaceD ss 0).get ⟨i, hlt⟩) 0 hne
              obtain ⟨res, hres⟩ :=
                ih (appendToSpace ss pk ((findSpaceD ss 0).get ⟨i, hlt⟩)) (i + 1) (by rw [hfa]; omega)
              refine ⟨res, ?_⟩
              rw [distributeLoop_succ db mk pk fuel ss i hlt, hget]
              simp only [hgfv]
              rw [if_neg homk, if_pos hopk]
              exact hres
            · refine ⟨Except.error (RepairError.structureError, ss), ?_⟩
              rw [distributeLoop_succ db mk pk fuel ss i hlt, hget]
              simp only [hgfv]
              rw [if_neg homk, if_neg hopk]
    · exact ⟨Except.ok ss, distributeLoop_stop db mk pk _ ss i hlt⟩

/-! ## Registry-level helper lemmas -/

theorem geSpaces_fst (ss : Spaces) (k : Int) : (geSpaces ss k).1 = findSpaceD ss k := by
  unfold geSpaces findSpaceD
  cases hf : findSpace ss k <;> simp

theorem findSpace_geSpaces_pres (ss : Spaces) (k j : Int) (v : EntitySpace)
    (hv : findSpace ss j = some v) : findSpace (geSpaces ss k).2 j = some v := by
  rw [findSpace_geSpaces]
  by_cases he : j = k
  · subst he
    rw [if_pos rfl, geSpaces_fst]
    unfold findSpaceD
    rw [hv]
    rfl
  · rw [if_neg he]
    exact hv

theorem findSpace_geSpaces_self (ss : Spaces) (k : Int) :
    findSpace (geSpaces ss k).2 k = some ((geSpaces ss k).1) := by
  rw [findSpace_geSpaces, if_pos rfl]

/-- C1: after a successful repair, every temp-space entity with paper-space
flag 0 is in the model space, every other one in the paper space, and key 0
is gone from the registry. -/
theorem repair_partitions_temp_space (r : LayoutSpaces) (mk pk : Int) (fuel : Nat)
    (r' : LayoutSpaces) (temp : EntitySpace)
    (hnd : (r.spaces.map Prod.fst).Nodup)
    (hver : strLeB r.dxfversion AC1009 = false)
    (h0 : findSpace r.spaces 0 = some temp)
    (hok : LayoutSpaces.repair_owner_tags r mk pk fuel = some (Except.ok r')) :
    (∀ h ∈ temp, ∀ t ets, dbGet r.entitydb h = some t → Tags.acdbEntity t = some ets →
      (getFirstValueD ets 67 0 = 0 → h ∈ findSpaceD r'.spaces mk) ∧
      (getFirstValueD ets 67 0 ≠ 0 → h ∈ findSpaceD r'.spaces pk)) ∧
    findSpace r'.spaces 0 = none := by
  have hvn : ¬ strLeB r.dxfversion AC1009 = true := by rw [hver]; simp
  have h0n : ¬ (findSpace r.spaces 0).isNone = true := by rw [h0]; simp
  have htemp : findSpaceD r.spaces 0 = temp := by rw [findSpaceD, h0]; rfl
  unfold LayoutSpaces.repair_owner_tags at hok
  rw [if_neg hvn, if_neg h0n, htemp] at hok
  -- name the intermediate space dicts
  set ss1 := (geSpaces r.spaces mk).2 with hss1
  set ss2 := (geSpaces ss1 pk).2 with hss2
  cases hupd : updateEntityTags mk pk r.entitydb temp with
  | error p =>
    obtain ⟨e, db2⟩ := p
    rw [hupd] at hok
    simp at hok
  | ok db2 =>
    rw [hupd] at hok
    simp only [distribute] at hok
    cases hdist : distributeLoop db2 mk pk fuel ss2 0 with
    | none => rw [hdist] at hok; cases hok
    | some res =>
      cases res with
      | error p =>
        obtain ⟨e, ss3⟩ := p
        rw [hdist] at hok
        simp at hok
      | ok ss3 =>
        rw [hdist] at hok
        simp only [Option.some.injEq, Except.ok.injEq] at hok
        -- the resulting registry
        have hr' : r' = { r with spaces := delKey ss3 0, entitydb := db2 } := hok.symm
        subst hr'
        -- facts about the intermediate dict
        have h0ss1 : findSpace ss1 0 = some temp := findSpace_geSpaces_pres r.spaces mk 0 temp h0
        have h0ss2 : findSpace ss2 0 = some temp := findSpace_geSpaces_pres ss1 pk 0 temp h0ss1
        have htemp2 : findSpaceD ss2 0 = temp := by rw [findSpaceD, h0ss2]; rfl
        have hsm : (findSpace ss2 mk).isSome = true := by
          rw [findSpace_geSpaces_pres ss1 pk mk _ (findSpace_geSpaces_self r.spaces mk)]
          rfl
        have hsp : (findSpace ss2 pk).isSome = true := by
          rw [findSpace_geSpaces_self ss1 pk]
          rfl
        have hnd2 : (ss2.map Prod.fst).Nodup :=
          nodup_keys_geSpaces ss1 pk (nodup_keys_geSpaces r.spaces mk hnd)
        have hnd3 : (ss3.map Prod.fst).Nodup := by
          rw [keys_distributeLoop db2 mk pk fuel ss2 0 ss3 hdist]
          exact hnd2
        obtain ⟨hagF, hpost⟩ :=
          updateEntityTags_post mk pk temp r.entitydb r.entitydb db2 (AcdbAgrees.rfl _) hupd
        refine ⟨?_, findSpace_delKey_self ss3 0 hnd3⟩
        intro h hh t ets hT hE
        obtain ⟨t0, ets0, hT0, hE0, t1, hT1, hO1⟩ := hpost h hh
        rw [hT] at hT0
        injection hT0 with ht0eq
        subst ht0eq
        rw [hE] at hE0
        injection hE0 with hetseq
        subst hetseq
        constructor
        · -- flag 0: the entity must land in the model space
          intro hflag
          have hkey : keyFor mk pk ets = mk := by rw [keyFor, if_pos hflag]
          rw [hkey] at hO1
          by_cases hmk0 : mk = 0
          · exfalso
            refine distributeLoop_no_ok_of_bad db2 mk pk fuel ss2 0 ?_ ss3 hdist
            refine ⟨h, ?_, t1, hT1, ?_⟩
            · rw [htemp2]
              simpa using hh
            · rw [hO1, hmk0]
          · -- locate the element in the final temp list
            obtain ⟨⟨j, hjlt⟩, hjget⟩ := List.mem_iff_get.mp hh
            have hext0 := distributeLoop_ext db2 mk pk fuel ss2 0 ss3 hdist 0
            rw [htemp2] at hext0
            have hj3 : j < (findSpaceD ss3 0).length :=
              lt_of_lt_of_le hjlt hext0.length_le
            have hget3 : (findSpaceD ss3 0).get ⟨j, hj3⟩ = h := by
              rw [hext0.get_eq j hjlt hj3]
              exact hjget
            obtain ⟨o, t2, hT2, hO2, hdisj⟩ :=
              distributeLoop_complete db2 mk pk fuel ss2 0 ss3 hdist hsm hsp j
                (Nat.zero_le j) hj3
            rw [hget3] at hT2
            rw [hT1] at hT2
            injection hT2 with ht2eq
            subst ht2eq
            rw [hO1] at hO2
            injection hO2 with hoeq
            subst hoeq
            have hfin : h ∈ findSpaceD ss3 mk := by
              rcases hdisj with ⟨_, hm⟩ | ⟨hopk, hm⟩
              · rw [hget3] at hm; exact hm
              · rw [hget3] at hm; rw [hopk]; exact hm
            show h ∈ findSpaceD (delKey ss3 0) mk
            rw [findSpaceD, findSpace_delKey_ne ss3 0 mk hmk0]
            exact hfin
        · -- flag non-0: the entity must land in the paper space
          intro hflag
          have hkey : keyFor mk pk ets = pk := by rw [keyFor, if_neg hflag]
          rw [hkey] at hO1
          by_cases hpk0 : pk = 0
          · exfalso
            refine distributeLoop_no_ok_of_bad db2 mk pk fuel ss2 0 ?_ ss3 hdist
            refine ⟨h, ?_, t1, hT1, ?_⟩
            · rw [htemp2]
              simpa using hh
            · rw [hO1, hpk0]
          · obtain ⟨⟨j, hjlt⟩, hjget⟩ := List.mem_iff_get.mp hh
            have hext0 := distributeLoop_ext db2 mk pk fuel ss2 0 ss3 hdist 0
            rw [htemp2] at hext0
            have hj3 : j < (findSpaceD ss3 0).length :=
              lt_of_lt_of_le hjlt hext0.length_le
            have hget3 : (findSpaceD ss3 0).get ⟨j, hj3⟩ = h := by
              rw [hext0.get_eq j hjlt hj3]
              exact hjget
            obtain ⟨o, t2, hT2, hO2, hdisj⟩ :=
              distributeLoop_complete db2 mk pk fuel ss2 0 ss3 hdist hsm hsp j
                (Nat.zero_le j) hj3
            rw [hget3] at hT2
            rw [hT1] at hT2
            injection hT2 with ht2eq
            subst ht2eq
            rw [hO1] at hO2
            injection hO2 with hoeq
            subst hoeq
            have hfin : h ∈ findSpaceD ss3 pk := by
              rcases hdisj with ⟨homk, hm⟩ | ⟨_, hm⟩
              · rw [hget3] at hm; rw [homk]; exact hm
              · rw [hget3] at hm; exact hm
            show h ∈ findSpaceD (delKey ss3 0) pk
            rw [findSpaceD, findSpace_delKey_ne ss3 0 pk hpk0]
            exact hfin

/-- C2: repair_owner_tags is a no-op, returning the registry unchanged, for
legacy versions and when no temporary space keyed 0 exists. -/
theorem repair_noop_guards (r : LayoutSpaces) (mk pk : Int) (fuel : Nat)
    (hguard : strLeB r.dxfversion AC1009 = true ∨ findSpace r.spaces 0 = none) :
    LayoutSpaces.repair_owner_tags r mk pk fuel = some (Except.ok r) := by
  unfold LayoutSpaces.repair_owner_tags
  by_cases hv : strLeB r.dxfversion AC1009 = true
  · rw [if_pos hv]
  · rcases hguard with hv2 | h0
    · exact absurd hv2 hv
    · rw [if_neg hv, if_pos (by rw [h0]; rfl)]

/-- C10: whenever repair_owner_tags propagates an error, key 0 is still
registered and the temporary space's handle sequence is what it was before
the call; the temporary space is deleted only after both passes succeed. -/
theorem repair_error_preserves_temp_space (r : LayoutSpaces) (mk pk : Int) (fuel : Nat)
    (e : RepairError) (r' : LayoutSpaces)
    (herr : LayoutSpaces.repair_owner_tags r mk pk fuel = some (Except.error (e, r'))) :
    findSpace r'.spaces 0 = findSpace r.spaces 0 ∧ (findSpace r'.spaces 0).isSome = true := by
  unfold LayoutSpaces.repair_owner_tags at herr
  by_cases hv : strLeB r.dxfversion AC1009 = true
  · rw [if_pos hv] at herr
    simp at herr
  · rw [if_neg hv] at herr
    cases hf : findSpace r.spaces 0 with
    | none =>
      rw [if_pos (by rw [hf]; rfl)] at herr
      simp at herr
    | some temp =>
      rw [if_neg (by rw [hf]; simp)] at herr
      have htemp : findSpaceD r.spaces 0 = temp := by rw [findSpaceD, hf]; rfl
      rw [htemp] at herr
      have h0ss1 : findSpace (geSpaces r.spaces mk).2 0 = some temp :=
        findSpace_geSpaces_pres r.spaces mk 0 temp hf
      have h0ss2 : findSpace (geSpaces (geSpaces r.spaces mk).2 pk).2 0 = some temp :=
        findSpace_geSpaces_pres _ pk 0 temp h0ss1
      cases hupd : updateEntityTags mk pk r.entitydb temp with
      | error p =>
        obtain ⟨e2, db2⟩ := p
        rw [hupd] at herr
        simp only [Option.some.injEq, Except.error.injEq, Prod.mk.injEq] at herr
        obtain ⟨_, hr'⟩ := herr
        subst hr'
        constructor
        · show findSpace (geSpaces (geSpaces r.spaces mk).2 pk).2 0 = some temp
          rw [h0ss2]
        · show (findSpace (geSpaces (geSpaces r.spaces mk).2 pk).2 0).isSome = true
          rw [h0ss2]
          rfl
      | ok db2 =>
        rw [hupd] at herr
        simp only [distribute] at herr
        obtain ⟨hagF, hpost⟩ :=
          updateEntityTags_post mk pk temp r.entitydb r.entitydb db2 (AcdbAgrees.rfl _) hupd
        have hgood : ∀ h ∈ findSpaceD (geSpaces (geSpaces r.spaces mk).2 pk).2 0,
            ∃ t o, dbGet db2 h = some t ∧
              getFirstValue? (Tags.noclass t) 330 = some o ∧ (o = mk ∨ o = pk) := by
          intro h hh
          rw [show findSpaceD (geSpaces (geSpaces r.spaces mk).2 pk).2 0 = temp by
            rw [findSpaceD, h0ss2]; rfl] at hh
          obtain ⟨t0, ets0, hT0, hE0, t1, hT1, hO1⟩ := hpost h hh
          refine ⟨t1, keyFor mk pk ets0, hT1, hO1, ?_⟩
          rw [keyFor]
          by_cases hfl : getFirstValueD ets0 67 0 = 0
          · rw [if_pos hfl]
            exact Or.inl rfl
          · rw [if_neg hfl]
            exact Or.inr rfl
        cases hdist : distributeLoop db2 mk pk fuel (geSpaces (geSpaces r.spaces mk).2 pk).2 0 with
        | none => rw [hdist] at herr; cases herr
        | some res =>
          cases res with
          | error p =>
            obtain ⟨e2, ss3⟩ := p
            exact absurd hdist (distributeLoop_no_error db2 mk pk fuel _ 0 hgood e2 ss3)
          | ok ss3 =>
            rw [hdist] at herr
            simp at herr

/-! ## C3: termination of the repair pass -/

/-- A record with no owner tag and paper-space flag 0 (defaulted). -/
def tLoop : Tags := { handle := 1, link := none, noclass := [], acdbEntity := some [] }

/-- The same record after the tag-fix pass wrote owner 0 into it. -/
def tLoopFixed : Tags := { handle := 1, link := none, noclass := [(330, 0)], acdbEntity := some [] }

def dbLoop : EntityDB := [(1, tLoop)]

def dbLoopFixed : EntityDB := [(1, tLoopFixed)]

/-- A newer-dialect registry whose temporary space holds the record. -/
def rLoop : LayoutSpaces :=
  { spaces := [(0, [1])], entitydb := dbLoop, dxfversion := "AC1018",
    keyStrat := KeyStrategy.ownerRef }

/-- The family of space dicts the diverging redistribution runs through:
the temporary space keeps growing by copies of handle 1. -/
def spacesLoop (n : Nat) : Spaces := [(0, List.replicate n 1), (200, [])]

theorem distributeLoop_spacesLoop_diverges (fuel : Nat) :
    ∀ (n i : Nat), i < n →
    distributeLoop dbLoopFixed 0 200 fuel (spacesLoop n) i = none := by
  induction fuel with
  | zero =>
    intro n i hin
    apply distributeLoop_zero
    show i < (findSpaceD (spacesLoop n) 0).length
    simp [spacesLoop, findSpaceD, findSpace]
    omega
  | succ fuel ih =>
    intro n i hin
    have hlt : i < (findSpaceD (spacesLoop n) 0).length := by
      simp [spacesLoop, findSpaceD, findSpace]
      omega
    rw [distributeLoop_succ dbLoopFixed 0 200 fuel (spacesLoop n) i hlt]
    have hget : (findSpaceD (spacesLoop n) 0).get ⟨i, hlt⟩ = 1 := by
      simp [spacesLoop, findSpaceD, findSpace]
    rw [hget]
    have hdb : dbGet dbLoopFixed 1 = some tLoopFixed := rfl
    simp only [hdb]
    have hgfv : getFirstValue? (Tags.noclass tLoopFixed) 330 = some 0 := rfl
    simp only [hgfv]
    simp only [if_true]
    have happ : appendToSpace (spacesLoop n) 0 1 = spacesLoop (n + 1) := by
      simp [spacesLoop, appendToSpace, List.replicate_succ']
    rw [happ]
    exact ih (n + 1) (i + 1) (by omega)

/-- C3 counterexample: with the model key equal to the sentinel 0 the
redistribution loop of repair_owner_tags keeps re-reading the handles it
appends; no amount of fuel makes the call return. -/
theorem repair_sentinel_key_diverges :
    ¬ ∃ fuel res, LayoutSpaces.repair_owner_tags rLoop 0 200 fuel = some res := by
  rintro ⟨fuel, res, hres⟩
  have hnone : LayoutSpaces.repair_owner_tags rLoop 0 200 fuel = none := by
    unfold LayoutSpaces.repair_owner_tags
    rw [if_neg (by decide : ¬ strLeB rLoop.dxfversion AC1009 = true)]
    rw [if_neg (by decide : ¬ (findSpace rLoop.spaces 0).isNone = true)]
    have hupd : updateEntityTags 0 200 rLoop.entitydb (findSpaceD rLoop.spaces 0) =
        Except.ok dbLoopFixed := rfl
    simp only [hupd]
    have hss : (geSpaces (geSpaces rLoop.spaces 0).2 200).2 = spacesLoop 1 := rfl
    rw [hss]
    simp only [distribute]
    rw [distributeLoop_spacesLoop_diverges fuel 1 0 (by omega)]
  rw [hnone] at hres
  cases hres

/-- C3 amended: the structurally recursive operations of the space layer
always terminate, and repair_owner_tags completes within fuel equal to the
length of the temporary space whenever both destination keys differ from
the sentinel 0 (with a destination key equal to 0 the redistribution loop
re-reads its own appends and diverges). -/
theorem repair_terminates_nonzero_keys (r : LayoutSpaces) (mk pk : Int)
    (hmk : mk ≠ 0) (hpk : pk ≠ 0) :
    ∃ res, LayoutSpaces.repair_owner_tags r mk pk ((findSpaceD r.spaces 0).length) =
      some res := by
  by_cases hv : strLeB r.dxfversion AC1009 = true
  · exact ⟨Except.ok r, repair_noop_guards r mk pk _ (Or.inl hv)⟩
  · cases hf : findSpace r.spaces 0 with
    | none => exact ⟨Except.ok r, repair_noop_guards r mk pk _ (Or.inr hf)⟩
    | some temp =>
      have h0n : ¬ (findSpace r.spaces 0).isNone = true := by rw [hf]; simp
      have htemp : findSpaceD r.spaces 0 = temp := by rw [findSpaceD, hf]; rfl
      have h0ss2 : findSpace (geSpaces (geSpaces r.spaces mk).2 pk).2 0 = some temp :=
        findSpace_geSpaces_pres _ pk 0 temp (findSpace_geSpaces_pres r.spaces mk 0 temp hf)
      cases hupd : updateEntityTags mk pk r.entitydb temp with
      | error p =>
        obtain ⟨e, db2⟩ := p
        refine ⟨Except.error (e, { r with
          spaces := (geSpaces (geSpaces r.spaces mk).2 pk).2, entitydb := db2 }), ?_⟩
        unfold LayoutSpaces.repair_owner_tags
        rw [if_neg hv, if_neg h0n, htemp]
        simp only [hupd]
      | ok db2 =>
        have hlen : (findSpaceD (geSpaces (geSpaces r.spaces mk).2 pk).2 0).length ≤
            0 + (findSpaceD r.spaces 0).length := by
          rw [show findSpaceD (geSpaces (geSpaces r.spaces mk).2 pk).2 0 = temp by
            rw [findSpaceD, h0ss2]; rfl, htemp]
          omega
        obtain ⟨res0, hres0⟩ :=
          distributeLoop_total db2 mk pk hmk hpk ((findSpaceD r.spaces 0).length) _ 0 hlen
        cases res0 with
        | ok ss3 =>
          refine ⟨Except.ok { r with spaces := delKey ss3 0, entitydb := db2 }, ?_⟩
          unfold LayoutSpaces.repair_owner_tags
          rw [if_neg hv, if_neg h0n, htemp]
          simp only [hupd, distribute]
          rw [htemp] at hres0
          rw [hres0]
        | error p =>
          obtain ⟨e, ss3⟩ := p
          refine ⟨Except.error (e, { r with spaces := ss3, entitydb := db2 }), ?_⟩
          unfold LayoutSpaces.repair_owner_tags
          rw [if_neg hv, if_neg h0n, htemp]
          simp only [hupd, distribute]
          rw [htemp] at hres0
          rw [hres0]

/-! ## C4: invalid owner detection -/

theorem distributeLoop_invalid_owner (db : EntityDB) (mk pk : Int) (fuel : Nat) :
    ∀ (ss : Spaces) (i j : Nat) (hj : j < (findSpaceD ss 0).length), i ≤ j →
    j - i < fuel →
    (∀ k (hk : k < (findSpaceD ss 0).length), i ≤ k → k ≤ j →
       ∃ t o, dbGet db ((findSpaceD ss 0).get ⟨k, hk⟩) = some t ∧
         getFirstValue? (Tags.noclass t) 330 = some o) →
    (∃ t o, dbGet db ((findSpaceD ss 0).get ⟨j, hj⟩) = some t ∧
       getFirstValue? (Tags.noclass t) 330 = some o ∧ o ≠ mk ∧ o ≠ pk) →
    ∃ ss', distributeLoop db mk pk fuel ss i =
      some (Except.error (RepairError.structureError, ss')) := by
  induction fuel with
  | zero =>
    intro ss i j hj hij hfu hall hbad
    omega
  | succ fuel ih =>
    intro ss i j hj hij hfu hall hbad
    have hlt : i < (findSpaceD ss 0).length := by omega
    obtain ⟨t, o, hT, hO⟩ := hall i hlt (Nat.le_refl i) hij
    obtain ⟨t2, o2, hT2, hO2, hne1, hne2⟩ := hbad
    by_cases hmk : o = mk
    · -- the processed element is routed to the model space; the bad one is further on
      have hij2 : i < j := by
        rcases Nat.lt_or_ge i j with hl | hg
        · exact hl
        · exfalso
          have hie : i = j := by omega
          subst hie
          have hTT : dbGet db ((findSpaceD ss 0).get ⟨i, hlt⟩) = some t2 := hT2
          rw [hT] at hTT
          injection hTT with htt
          subst htt
          rw [hO] at hO2
          injection hO2 with hoo
          exact hne1 (hoo ▸ hmk)
      have hext := findSpaceD_appendToSpace_ext ss mk ((findSpaceD ss 0).get ⟨i, hlt⟩) 0
      have hlen := hext.length_le
      obtain ⟨ss', hss'⟩ := ih (appendToSpace ss mk ((findSpaceD ss 0).get ⟨i, hlt⟩)) (i + 1) j
        (by omega) (by omega) (by omega)
        (by
          intro k hk hik hkj
          have hk0 : k < (findSpaceD ss 0).length := by omega
          rw [hext.get_eq k hk0 hk]
          exact hall k hk0 (by omega) hkj)
        (by
          have hj2 : j < (findSpaceD (appendToSpace ss mk ((findSpaceD ss 0).get ⟨i, hlt⟩)) 0).length := by omega
          have hge := hext.get_eq j hj hj2
          exact ⟨t2, o2, hge.symm ▸ hT2, hO2, hne1, hne2⟩)
      refine ⟨ss', ?_⟩
      rw [distributeLoop_succ db mk pk fuel ss i hlt]
      simp only [hT, hO]
      rw [if_pos hmk]
      exact hss'
    · by_cases hpk : o = pk
      · have hij2 : i < j := by
          rcases Nat.lt_or_ge i j with hl | hg
          · exact hl
          · exfalso
            have hie : i = j := by omega
            subst hie
            have hTT : dbGet db ((findSpaceD ss 0).get ⟨i, hlt⟩) = some t2 := hT2
            rw [hT] at hTT
            injection hTT with htt
            subst htt
            rw [hO] at hO2
            injection hO2 with hoo
            exact hne2 (hoo ▸ hpk)
        have hext := findSpaceD_appendToSpace_ext ss pk ((findSpaceD ss 0).get ⟨i, hlt⟩) 0
        have hlen := hext.length_le
        obtain ⟨ss', hss'⟩ := ih (appendToSpace ss pk ((findSpaceD ss 0).get ⟨i, hlt⟩)) (i + 1) j
          (by omega) (by omega) (by omega)
          (by
            intro k hk hik hkj
            have hk0 : k < (findSpaceD ss 0).length := by omega
            rw [hext.get_eq k hk0 hk]
            exact hall k hk0 (by omega) hkj)
          (by
            have hj2 : j < (findSpaceD (appendToSpace ss pk ((findSpaceD ss 0).get ⟨i, hlt⟩)) 0).length := by omega
            have hge := hext.get_eq j hj hj2
            exact ⟨t2, o2, hge.symm ▸ hT2, hO2, hne1, hne2⟩)
        refine ⟨ss', ?_⟩
        rw [distributeLoop_succ db mk pk fuel ss i hlt]
        simp only [hT, hO]
        rw [if_neg hmk, if_pos hpk]
        exact hss'
      · refine ⟨ss, ?_⟩
        rw [distributeLoop_succ db mk pk fuel ss i hlt]
        simp only [hT, hO]
        rw [if_neg hmk, if_neg hpk]

/-- C4: an entity of the temporary space whose owner tag matches neither
the model key nor the paper key makes the redistribution pass of
repair_owner_tags fail with the structure error, provided the pass can
reach it (every pending record resolves and carries an owner tag). -/
theorem distribute_invalid_owner_error (db : EntityDB) (mk pk : Int) (fuel : Nat) (ss : Spaces)
    (hfuel : (findSpaceD ss 0).length ≤ fuel)
    (hall : ∀ h ∈ findSpaceD ss 0, ∃ t o, dbGet db h = some t ∧
       getFirstValue? (Tags.noclass t) 330 = some o)
    (hbad : ∃ h ∈ findSpaceD ss 0, ∃ t o, dbGet db h = some t ∧
       getFirstValue? (Tags.noclass t) 330 = some o ∧ o ≠ mk ∧ o ≠ pk) :
    ∃ ss', distribute db mk pk fuel ss =
      some (Except.error (RepairError.structureError, ss')) := by
  obtain ⟨h, hmem, t, o, hT, hO, hne1, hne2⟩ := hbad
  obtain ⟨⟨j, hj⟩, hjget⟩ := List.mem_iff_get.mp hmem
  refine distributeLoop_invalid_owner db mk pk fuel ss 0 j hj (Nat.zero_le j) (by omega) ?_ ?_
  · intro k hk _ _
    exact hall _ (List.get_mem _ _ _)
  · refine ⟨t, o, ?_, hO, hne1, hne2⟩
    rw [hjget]
    exact hT

/-! ## C5: serialization order and link chains -/

/-- The chain of records reached from an optional handle by resolving it in
the database and repeatedly following the link field; it stops exactly
where the link field is empty. -/
inductive IsLinkChain (db : EntityDB) : Option Handle → List Tags → Prop where
  | nil : IsLinkChain db none []
  | cons {h : Handle} {t : Tags} {l : List Tags} :
      dbGet db h = some t → IsLinkChain db (Tags.link t) l →
      IsLinkChain db (some h) (t :: l)

theorem writeChase_chain (db : EntityDB) (fuel : Nat) :
    ∀ (oh : Option Handle) (l : List Tags),
    writeChase db fuel oh = some (Except.ok l) → IsLinkChain db oh l := by
  induction fuel with
  | zero =>
    intro oh l hok
    cases oh with
    | none =>
      simp only [writeChase] at hok
      injection hok with h1
      injection h1 with h2
      rw [← h2]
      exact IsLinkChain.nil
    | some h =>
      simp only [writeChase] at hok
      cases hok
  | succ fuel ih =>
    intro oh l hok
    cases oh with
    | none =>
      simp only [writeChase] at hok
      injection hok with h1
      injection h1 with h2
      rw [← h2]
      exact IsLinkChain.nil
    | some h =>
      simp only [writeChase] at hok
      cases hget : dbGet db h with
      | none => simp only [hget] at hok; cases hok
      | some t =>
        simp only [hget] at hok
        cases hrec : writeChase db fuel (Tags.link t) with
        | none => rw [hrec] at hok; cases hok
        | some res =>
          cases res with
          | error e => simp only [hrec] at hok; cases hok
          | ok l0 =>
            simp only [hrec] at hok
            injection hok with h1
            injection h1 with h2
            rw [← h2]
            exact IsLinkChain.cons hget (ih _ _ hrec)

/-- C5: a successful write emits one chunk per stored handle, the chunks
concatenated in the insertion order of the handles; each chunk is the
resolved record followed by the records reached along the link fields,
stopping exactly where the link field is empty. -/
theorem write_emits_link_chains (db : EntityDB) (fuel : Nat) :
    ∀ (s : EntitySpace) (out : List Tags),
    EntitySpace.write db fuel s = some (Except.ok out) →
    ∃ chunks : List (List Tags), out = chunks.flatten ∧
      List.Forall₂ (fun h c => IsLinkChain db (some h) c) s chunks := by
  intro s
  induction s with
  | nil =>
    intro out hok
    simp only [EntitySpace.write] at hok
    injection hok with h1
    injection h1 with h2
    exact ⟨[], by simp [← h2], List.Forall₂.nil⟩
  | cons h hs ih =>
    intro out hok
    simp only [EntitySpace.write] at hok
    cases hch : writeChase db fuel (some h) with
    | none => rw [hch] at hok; cases hok
    | some res =>
      cases res with
      | error e => simp only [hch] at hok; cases hok
      | ok l =>
        simp only [hch] at hok
        cases hrest : EntitySpace.write db fuel hs with
        | none => rw [hrest] at hok; cases hok
        | some res2 =>
          cases res2 with
          | error e => simp only [hrest] at hok; cases hok
          | ok l2 =>
            simp only [hrest] at hok
            injection hok with h1
            injection h1 with h2
            obtain ⟨chunks, hjoin, hfa⟩ := ih l2 hrest
            refine ⟨l :: chunks, ?_, List.Forall₂.cons (writeChase_chain db fuel _ _ hch) hfa⟩
            rw [← h2, hjoin]
            simp

/-- Concrete two-record chain: record A links to record B, B ends the chain. -/
def tagsA : Tags := { handle := 1, link := some 2, noclass := [], acdbEntity := none }

def tagsB : Tags := { handle := 2, link := none, noclass := [], acdbEntity := none }

def dbAB : EntityDB := [(1, tagsA), (2, tagsB)]

/-- C5 witness: writing a space holding only A's handle emits A then B and
stops. -/
theorem write_emits_link_chains_witness :
    ∃ chunks : List (List Tags), [tagsA, tagsB] = chunks.flatten ∧
      List.Forall₂ (fun h c => IsLinkChain dbAB (some h) c) [1] chunks :=
  write_emits_link_chains dbAB 2 [1] [tagsA, tagsB] rfl

/-! ## C6, C7, C8, C9: registry operations -/

/-- C6: get_entity_space returns the registered space with the registry
unchanged when the key exists; otherwise it registers a fresh empty space
under the key, touching no other entry; and a second call with the same
key returns the same space and the same registry. -/
theorem get_entity_space_spec (r : LayoutSpaces) (key : Int) :
    (∀ v, findSpace r.spaces key = some v → r.get_entity_space key = (v, r)) ∧
    (findSpace r.spaces key = none →
      (r.get_entity_space key).1 = [] ∧
      findSpace (r.get_entity_space key).2.spaces key = some []) ∧
    (∀ j, j ≠ key →
      findSpace (r.get_entity_space key).2.spaces j = findSpace r.spaces j) ∧
    (r.get_entity_space key).2.get_entity_space key = r.get_entity_space key := by
  refine ⟨?_, ?_, ?_, ?_⟩
  · intro v hv
    simp [LayoutSpaces.get_entity_space, geSpaces, hv]
  · intro hn
    simp [LayoutSpaces.get_entity_space, geSpaces, hn, findSpace_setSpace]
  · intro j hj
    unfold LayoutSpaces.get_entity_space
    rw [findSpace_geSpaces, if_neg hj]
  · cases hf : findSpace r.spaces key with
    | some v => simp [LayoutSpaces.get_entity_space, geSpaces, hf]
    | none => simp [LayoutSpaces.get_entity_space, geSpaces, hf, findSpace_setSpace]

/-- Effect of store_tags on every space of the registry: the space under
the derived key gains the record's handle at its end, all others are kept. -/
theorem store_tags_spaces (r : LayoutSpaces) (t : Tags) (k : Int) :
    findSpaceD (r.store_tags t).spaces k =
      findSpaceD r.spaces k ++
        (if k = r.get_key t then [Tags.handle t] else []) := by
  unfold LayoutSpaces.store_tags
  by_cases hk : k = r.get_key t
  · subst hk
    rw [findSpaceD, findSpace_appendToSpace, if_pos rfl, findSpace_geSpaces_self, geSpaces_fst]
    simp
  · rw [findSpaceD, findSpace_appendToSpace, if_neg hk, findSpace_geSpaces,
      if_neg hk, if_neg hk, findSpaceD]
    simp

/-- C7: the strategy fixed at construction derives the key from the
paper-space flag tag 67 (default 0) for legacy versions and from the owner
tag 330 (default 0) otherwise, and store_tags appends the record's handle
to the space under exactly that key. -/
theorem store_key_strategy (db : EntityDB) (version : String) (t : Tags) (r : LayoutSpaces) :
    (mkLayoutSpaces db version).get_key t =
      (if strLeB version AC1009 = true then getFirstValueD (Tags.noclass t) 67 0
       else getFirstValueD (Tags.noclass t) 330 0) ∧
    ∀ k, findSpaceD (r.store_tags t).spaces k =
      findSpaceD r.spaces k ++
        (if k = r.get_key t then [Tags.handle t] else []) := by
  constructor
  · by_cases hv : strLeB version AC1009 = true
    · simp [mkLayoutSpaces, LayoutSpaces.get_key, evalKey, hv]
    · simp [mkLayoutSpaces, LayoutSpaces.get_key, evalKey, hv]
  · intro k
    exact store_tags_spaces r t k

theorem get_key_store_tags (r : LayoutSpaces) (t u : Tags) :
    (r.store_tags t).get_key u = r.get_key u := rfl

theorem foldl_store_spaces (rs : List Tags) :
    ∀ (r : LayoutSpaces) (k : Int),
    findSpaceD (rs.foldl LayoutSpaces.store_tags r).spaces k =
      findSpaceD r.spaces k ++
        ((rs.filter (fun u => r.get_key u = k)).map Tags.handle) := by
  induction rs with
  | nil =>
    intro r k
    simp
  | cons t rs ih =>
    intro r k
    rw [List.foldl_cons, ih (r.store_tags t) k]
    simp only [get_key_store_tags]
    rw [store_tags_spaces r t k]
    by_cases hp : k = r.get_key t
    · rw [if_pos hp]
      have hq : (r.get_key t = k) = True := by simp [hp.symm]
      simp [List.filter_cons, hp.symm, List.append_assoc]
    · rw [if_neg hp]
      have hq : ¬ r.get_key t = k := fun hh => hp hh.symm
      simp [List.filter_cons, hq]

/-- C8: after storing records with pairwise distinct handles into a fresh
registry, every stored handle lies in the space of its derived key and in
no other space. -/
theorem store_distinct_handles_unique (db : EntityDB) (version : String) (rs : List Tags)
    (hnd : (rs.map Tags.handle).Nodup) :
    ∀ t ∈ rs,
      Tags.handle t ∈
        findSpaceD (rs.foldl LayoutSpaces.store_tags (mkLayoutSpaces db version)).spaces
          ((mkLayoutSpaces db version).get_key t) ∧
      ∀ k,
        Tags.handle t ∈
          findSpaceD (rs.foldl LayoutSpaces.store_tags (mkLayoutSpaces db version)).spaces k →
        k = (mkLayoutSpaces db version).get_key t := by
  intro t ht
  have hbase : ∀ k, findSpaceD (mkLayoutSpaces db version).spaces k = [] := by
    intro k
    simp [mkLayoutSpaces, findSpaceD, findSpace]
  constructor
  · rw [foldl_store_spaces rs (mkLayoutSpaces db version) _, hbase]
    simp only [List.nil_append]
    exact List.mem_map_of_mem Tags.handle
      (List.mem_filter.mpr ⟨ht, by simp⟩)
  · intro k hk
    rw [foldl_store_spaces rs (mkLayoutSpaces db version) k, hbase] at hk
    simp only [List.nil_append] at hk
    obtain ⟨u, humem, hhu⟩ := List.mem_map.mp hk
    obtain ⟨hurs, hukey⟩ := List.mem_filter.mp humem
    have hut : u = t := List.inj_on_of_nodup_map hnd hurs ht hhu
    subst hut
    exact (of_decide_eq_true hukey).symm

/-- C9: delete_entity on a record whose derived key has no registered
space does not fail and leaves the registry unchanged. -/
theorem delete_entity_missing_space_noop (r : LayoutSpaces) (t : Tags)
    (habs : findSpace r.spaces (r.get_key t) = none) :
    r.delete_entity t = Except.ok r := by
  unfold LayoutSpaces.delete_entity
  rw [habs]

/-! ## Concrete witnesses -/

def verNew : String := "AC1018"

/-- Spec scenario: three records with paper-space flags 0, 1, 0 and no
owner tag, parked in the temporary space. -/
def tS1 : Tags := { handle := 1, link := none, noclass := [], acdbEntity := some [] }

def tS2 : Tags := { handle := 2, link := none, noclass := [], acdbEntity := some [(67, 1)] }

def tS3 : Tags := { handle := 3, link := none, noclass := [], acdbEntity := some [] }

def dbScen : EntityDB := [(1, tS1), (2, tS2), (3, tS3)]

def rScen : LayoutSpaces :=
  { spaces := [(0, [1, 2, 3])], entitydb := dbScen, dxfversion := "AC1018",
    keyStrat := KeyStrategy.ownerRef }

def tS1f : Tags := { handle := 1, link := none, noclass := [(330, 100)], acdbEntity := some [] }

def tS2f : Tags := { handle := 2, link := none, noclass := [(330, 200)], acdbEntity := some [(67, 1)] }

def tS3f : Tags := { handle := 3, link := none, noclass := [(330, 100)], acdbEntity := some [] }

def rScenOut : LayoutSpaces :=
  { spaces := [(100, [1, 3]), (200, [2])],
    entitydb := [(1, tS1f), (2, tS2f), (3, tS3f)], dxfversion := "AC1018",
    keyStrat := KeyStrategy.ownerRef }

/-- C1 witness: on the spec scenario (flags 0, 1, 0; model key 100, paper
key 200) the repair puts handles 1 and 3 under 100, handle 2 under 200,
and key 0 is gone. -/
theorem repair_partitions_temp_space_witness :
    (1 : Handle) ∈ findSpaceD rScenOut.spaces 100 ∧
    (2 : Handle) ∈ findSpaceD rScenOut.spaces 200 ∧
    (3 : Handle) ∈ findSpaceD rScenOut.spaces 100 ∧
    findSpace rScenOut.spaces 0 = none := by
  have hmain := repair_partitions_temp_space rScen 100 200 3 rScenOut [1, 2, 3]
    (by decide) rfl rfl rfl
  exact ⟨(hmain.1 1 (by decide) tS1 [] rfl rfl).1 rfl,
         (hmain.1 2 (by decide) tS2 [(67, 1)] rfl rfl).2 (by decide),
         (hmain.1 3 (by decide) tS3 [] rfl rfl).1 rfl,
         hmain.2⟩

def rLegacy : LayoutSpaces :=
  { spaces := [(0, [7])], entitydb := [], dxfversion := "AC1009",
    keyStrat := KeyStrategy.paperSpaceFlag }

/-- C2 witness: on a legacy-version registry the repair returns the
registry unchanged. -/
theorem repair_noop_guards_witness :
    LayoutSpaces.repair_owner_tags rLegacy 100 200 5 = some (Except.ok rLegacy) :=
  repair_noop_guards rLegacy 100 200 5 (Or.inl (by decide))

/-- C3 witness: with nonzero destination keys the repair of the scenario
registry completes within fuel equal to the temporary space's length. -/
theorem repair_terminates_nonzero_keys_witness :
    ∃ res, LayoutSpaces.repair_owner_tags rScen 100 200
      ((findSpaceD rScen.spaces 0).length) = some res :=
  repair_terminates_nonzero_keys rScen 100 200 (by decide) (by decide)

def tBadOwner : Tags := { handle := 9, link := none, noclass := [(330, 999)], acdbEntity := some [] }

def dbBad : EntityDB := [(9, tBadOwner)]

def ssBad : Spaces := [(0, [9]), (100, []), (200, [])]

/-- C4 witness: a forced owner tag 999 matching neither 100 nor 200 makes
the redistribution pass fail with the structure error. -/
theorem distribute_invalid_owner_error_witness :
    ∃ ss', distribute dbBad 100 200 1 ssBad =
      some (Except.error (RepairError.structureError, ss')) :=
  distribute_invalid_owner_error dbBad 100 200 1 ssBad (by decide)
    (by
      intro h hh
      have h9 : h = 9 := by
        have : h ∈ [(9 : Handle)] := hh
        simpa using this
      subst h9
      exact ⟨tBadOwner, 999, rfl, rfl⟩)
    ⟨9, by decide, tBadOwner, 999, rfl, rfl, by decide, by decide⟩

def rC6 : LayoutSpaces :=
  { spaces := [(5, [42])], entitydb := [], dxfversion := "AC1018",
    keyStrat := KeyStrategy.ownerRef }

/-- C6 witness: looking up the registered key 5 returns the stored space
with the registry unchanged, and get_entity_space at the fresh key 7 is
idempotent. -/
theorem get_entity_space_spec_witness :
    rC6.get_entity_space 5 = ([42], rC6) ∧
    (rC6.get_entity_space 7).2.get_entity_space 7 = rC6.get_entity_space 7 :=
  ⟨(get_entity_space_spec rC6 5).1 [42] rfl, (get_entity_space_spec rC6 7).2.2.2⟩

def tC7 : Tags := { handle := 4, link := none, noclass := [(330, 55)], acdbEntity := none }

/-- C7 witness: a newer-dialect registry derives key 55 from the owner tag
of a concrete record. -/
theorem store_key_strategy_witness :
    (mkLayoutSpaces [] verNew).get_key tC7 =
      (if strLeB verNew AC1009 = true then getFirstValueD (Tags.noclass tC7) 67 0
       else getFirstValueD (Tags.noclass tC7) 330 0) :=
  (store_key_strategy [] verNew tC7 (mkLayoutSpaces [] verNew)).1

def tC8a : Tags := { handle := 11, link := none, noclass := [(330, 100)], acdbEntity := none }

def tC8b : Tags := { handle := 12, link := none, noclass := [(330, 200)], acdbEntity := none }

def rsC8 : List Tags := [tC8a, tC8b]

/-- C8 witness: after storing two records with distinct handles, the first
handle is in the space of its derived key. -/
theorem store_distinct_handles_unique_witness :
    Tags.handle tC8a ∈
      findSpaceD ((rsC8.foldl LayoutSpaces.store_tags (mkLayoutSpaces [] verNew)).spaces)
        ((mkLayoutSpaces [] verNew).get_key tC8a) :=
  (store_distinct_handles_unique [] verNew rsC8 (by decide) tC8a (by decide)).1

def rC9 : LayoutSpaces :=
  { spaces := [(5, [1])], entitydb := [], dxfversion := "AC1018",
    keyStrat := KeyStrategy.ownerRef }

def tC9 : Tags := { handle := 1, link := none, noclass := [(330, 77)], acdbEntity := none }

/-- C9 witness: deleting a record whose derived key 77 has no space is a
no-op returning the unchanged registry. -/
theorem delete_entity_missing_space_noop_witness :
    rC9.delete_entity tC9 = Except.ok rC9 :=
  delete_entity_missing_space_noop rC9 tC9 rfl

def tNoSub : Tags := { handle := 6, link := none, noclass := [], acdbEntity := none }

def rC10 : LayoutSpaces :=
  { spaces := [(0, [6])], entitydb := [(6, tNoSub)], dxfversion := "AC1018",
    keyStrat := KeyStrategy.ownerRef }

def rC10err : LayoutSpaces :=
  { spaces := [(0, [6]), (100, []), (200, [])], entitydb := [(6, tNoSub)],
    dxfversion := "AC1018", keyStrat := KeyStrategy.ownerRef }

/-- C10 witness: on a record without the AcDbEntity subclass the repair
fails, and the failed registry still holds key 0 with its original handle
sequence. -/
theorem repair_error_preserves_temp_space_witness :
    findSpace rC10err.spaces 0 = findSpace rC10.spaces 0 ∧
    (findSpace rC10err.spaces 0).isSome = true :=
  repair_error_preserves_temp_space rC10 100 200 1 RepairError.structureError rC10err rfl
